import Mathlib

/-!
Verification model of the simpleblob blob-storage library.

Go strings and byte slices are modelled as lists of byte values (`List Nat`);
Go's byte-wise string comparison is the lexicographic order on those lists.
Backends are modelled as explicit state (association lists from names to
contents), and effectful filesystem code as an instrumented interpreter that
threads a world state, a fault oracle and a trace of primitive calls.
-/

namespace Simpleblob

/-- Byte strings: Go `string` and `[]byte` values, as lists of byte values. -/
abbrev Bytes := List Nat

/-- Byte contents of an ASCII string literal (all names used here are ASCII,
so code-point values coincide with UTF-8 bytes). -/
def bytes (s : String) : Bytes := s.data.map Char.toNat

/-- Association-list lookup, keyed on the first component (Go map read,
also a flat directory or bucket read). -/
def lookupF : List (Bytes × Bytes) → Bytes → Option Bytes
  | [], _ => none
  | p :: t, k => if p.1 = k then some p.2 else lookupF t k

/-- Remove every entry with the given key (Go map delete / object removal). -/
def eraseEntry : List (Bytes × Bytes) → Bytes → List (Bytes × Bytes)
  | [], _ => []
  | p :: t, k => if p.1 = k then eraseEntry t k else p :: eraseEntry t k

/-- Insert-or-replace, keyed on the first component (Go map write / object
overwrite: an existing key keeps its position, a new key is appended). -/
def setEntry : List (Bytes × Bytes) → Bytes → Bytes → List (Bytes × Bytes)
  | [], k, v => [(k, v)]
  | p :: t, k, v => if p.1 = k then (k, v) :: eraseEntry t k else p :: setEntry t k v

theorem lookupF_eraseEntry_self (m : List (Bytes × Bytes)) (k : Bytes) :
    lookupF (eraseEntry m k) k = none := by
  induction m with
  | nil => rfl
  | cons p t ih =>
    by_cases hp : p.1 = k
    · simpa [eraseEntry, hp] using ih
    · simpa [eraseEntry, hp, lookupF] using ih

theorem lookupF_eraseEntry_ne (m : List (Bytes × Bytes)) (k k' : Bytes) (h : k' ≠ k) :
    lookupF (eraseEntry m k) k' = lookupF m k' := by
  induction m with
  | nil => rfl
  | cons p t ih =>
    rw [eraseEntry]
    by_cases hp : p.1 = k
    · have hne : ¬ p.1 = k' := by
        intro hh
        apply h
        rw [← hh, hp]
      rw [if_pos hp, ih, lookupF, if_neg hne]
    · rw [if_neg hp, lookupF, lookupF]
      by_cases hp' : p.1 = k'
      · rw [if_pos hp', if_pos hp']
      · rw [if_neg hp', if_neg hp', ih]

theorem lookupF_setEntry_self (m : List (Bytes × Bytes)) (k v : Bytes) :
    lookupF (setEntry m k v) k = some v := by
  induction m with
  | nil => simp [setEntry, lookupF]
  | cons p t ih =>
    rw [setEntry]
    by_cases hp : p.1 = k
    · rw [if_pos hp, lookupF, if_pos rfl]
    · rw [if_neg hp, lookupF, if_neg hp, ih]

theorem lookupF_setEntry_ne (m : List (Bytes × Bytes)) (k v k' : Bytes) (h : k' ≠ k) :
    lookupF (setEntry m k v) k' = lookupF m k' := by
  induction m with
  | nil =>
    have hne : ¬ (k = k') := fun hh => h hh.symm
    simp [setEntry, lookupF, hne]
  | cons p t ih =>
    rw [setEntry]
    by_cases hp : p.1 = k
    · have hne : ¬ p.1 = k' := by
        intro hh
        apply h
        rw [← hh, hp]
      rw [if_pos hp, lookupF, lookupF, if_neg hne, if_neg (fun hh => h hh.symm)]
      exact lookupF_eraseEntry_ne t k k' h
    · rw [if_neg hp, lookupF, lookupF]
      by_cases hp' : p.1 = k'
      · rw [if_pos hp', if_pos hp']
      · rw [if_neg hp', if_neg hp', ih]

theorem not_mem_eraseEntry (m : List (Bytes × Bytes)) (k d : Bytes) :
    (k, d) ∉ eraseEntry m k := by
  induction m with
  | nil => simp [eraseEntry]
  | cons p t ih =>
    by_cases hp : p.1 = k
    · simpa [eraseEntry, hp] using ih
    · simp only [eraseEntry, hp, if_false, List.mem_cons]
      rintro (rfl | hm)
      · exact hp rfl
      · exact ih hm

theorem mem_setEntry_self (m : List (Bytes × Bytes)) (k v : Bytes) :
    (k, v) ∈ setEntry m k v := by
  induction m with
  | nil => simp [setEntry]
  | cons p t ih =>
    by_cases hp : p.1 = k
    · simp [setEntry, hp]
    · simp only [setEntry, hp, if_false, List.mem_cons]
      exact Or.inr ih

theorem mem_setEntry_eq (m : List (Bytes × Bytes)) (k v d : Bytes)
    (h : (k, d) ∈ setEntry m k v) : d = v := by
  induction m with
  | nil =>
    simp [setEntry] at h
    exact h
  | cons p t ih =>
    by_cases hp : p.1 = k
    · simp only [setEntry, hp, if_true, List.mem_cons] at h
      rcases h with h | h
      · exact congrArg Prod.snd h
      · exact absurd h (not_mem_eraseEntry t k d)
    · simp only [setEntry, hp, if_false, List.mem_cons] at h
      rcases h with h | h
      · exact absurd (congrArg Prod.fst h).symm hp
      · exact ih h

/-! ### Name validator (src/allowedname.go) -/

/-- Go strings.Contains(s, t): t occurs as a contiguous substring of s. -/
def containsB (s t : Bytes) : Bool := decide (t <:+: s)

/-- Error kinds of a NameError, mirroring the Kind strings of the source
(empty, content, prefix and suffix kinds). -/
inductive NameErrKind
  | empty
  | content
  | forbiddenPrefix
  | forbiddenSuffix
deriving DecidableEq, Repr

/-- NameError record from src/allowedname.go. -/
structure NameError where
  name : Bytes
  kind : NameErrKind
  forbidden : Bytes
deriving DecidableEq, Repr

/-- Forbidden substrings checked by CheckName: "/" and NUL. -/
def nameContents : List Bytes := [bytes "/", bytes "\x00"]

/-- Forbidden leading strings checked by CheckName: ".". -/
def namePrefixes : List Bytes := [bytes "."]

/-- Forbidden trailing strings checked by CheckName: ".tmp". -/
def nameSuffixes : List Bytes := [bytes ".tmp"]

/-- CheckName from src/allowedname.go: empty check, then forbidden contents,
then forbidden leading strings, then forbidden trailing strings. -/
def CheckName (s : Bytes) : Option NameError :=
  if s = [] then some ⟨[], .empty, []⟩
  else
    match nameContents.find? (fun t => containsB s t) with
    | some t => some ⟨s, .content, t⟩
    | none =>
      match namePrefixes.find? (fun t => t.isPrefixOf s) with
      | some t => some ⟨s, .forbiddenPrefix, t⟩
      | none =>
        match nameSuffixes.find? (fun t => t.isSuffixOf s) with
        | some t => some ⟨s, .forbiddenSuffix, t⟩
        | none => none

/-- AllowedName from src/allowedname.go: CheckName(s) == nil. -/
def AllowedName (s : Bytes) : Bool := (CheckName s).isNone

/-! ### Blob model (src/blobs.go) -/

/-- Blob record from src/blobs.go: a name and an int64 size. -/
structure Blob where
  name : Bytes
  size : Int
deriving DecidableEq, Repr

/-- BlobList from src/blobs.go. -/
abbrev BlobList := List Blob

/-- The Less relation of BlobList (ascending by name, byte-wise), as a
non-strict order usable for sorting. -/
def blobLe (a b : Blob) : Prop := a.name ≤ b.name

instance : DecidableRel blobLe := fun a b => inferInstanceAs (Decidable (a.name ≤ b.name))

instance : IsTotal Blob blobLe := ⟨fun a b => le_total a.name b.name⟩

instance : IsTrans Blob blobLe := ⟨fun _ _ _ hab hbc => le_trans hab hbc⟩

/-- Modelled from the spec: BlobList.Sort (the file defining the Sort method is
not among the sources; the spec fixes the result as sorted ascending by name
under byte-wise comparison, and the benchmark in src/unnamed/part_004 checks
exactly that). sort.Sort and slices.SortFunc are modelled as insertion sort. -/
def sortBlobs (bl : BlobList) : BlobList := List.insertionSort blobLe bl

/-- BlobList.WithPrefix from src/blobs.go: keep blobs whose name starts with
the given string, order preserved. -/
def WithPrefix (bl : BlobList) (pre : Bytes) : BlobList :=
  bl.filter (fun b => pre.isPrefixOf b.name)

theorem sortBlobs_sorted (bl : BlobList) : List.Sorted blobLe (sortBlobs bl) :=
  List.sorted_insertionSort blobLe bl

theorem mem_sortBlobs (bl : BlobList) (b : Blob) : b ∈ sortBlobs bl ↔ b ∈ bl :=
  List.mem_insertionSort blobLe

/-! ### memory backend (src/backends/memory/memory.go) -/

/-- Go heap of byte buffers; a []byte value is an index into it. This makes
buffer aliasing and in-place mutation expressible, so that the copying done
by the memory backend is observable. -/
structure Heap where
  bufs : List Bytes
deriving Repr

/-- A []byte reference: an index into the heap. -/
abbrev BufId := Nat

/-- Read the contents a buffer reference points to. -/
def Heap.read (h : Heap) (r : BufId) : Bytes := h.bufs.getD r []

/-- Allocate a fresh buffer holding v (Go make + copy). -/
def Heap.alloc (h : Heap) (v : Bytes) : Heap × BufId :=
  (⟨h.bufs ++ [v]⟩, h.bufs.length)

/-- Overwrite the buffer at r (mutation through an alias the caller kept). -/
def Heap.write (h : Heap) (r : BufId) (v : Bytes) : Heap := ⟨h.bufs.set r v⟩

theorem Heap.read_alloc (h : Heap) (v : Bytes) :
    (h.alloc v).1.read (h.alloc v).2 = v := by
  show List.getD (h.bufs ++ [v]) h.bufs.length [] = v
  rw [List.getD_eq_getElem?_getD, List.getElem?_append_right (le_refl _)]
  simp

/-- memory backend state: the blobs map. Values are held by copy, because
Store copies before inserting, so no BufId appears here. -/
abbrev MemBackend := List (Bytes × Bytes)

/-- memory Backend.Store: copies the caller's buffer contents at call time,
then writes the copy into the map. -/
def memStore (h : Heap) (m : MemBackend) (name : Bytes) (data : BufId) : MemBackend :=
  setEntry m name (h.read data)

/-- memory Backend.Load: look the name up (os.ErrNotExist when absent) and
return a fresh copy of the stored value. -/
def memLoad (h : Heap) (m : MemBackend) (name : Bytes) : Option (Heap × BufId) :=
  match lookupF m name with
  | none => none
  | some data => some (h.alloc data)

/-- memory Backend.Delete: plain map delete, never an error. -/
def memDelete (m : MemBackend) (name : Bytes) : MemBackend := eraseEntry m name

/-- memory Backend.List: collect entries whose name has the prefix, then
sort. No name is excluded beyond the prefix filter. -/
def memList (m : MemBackend) (pre : Bytes) : BlobList :=
  sortBlobs ((m.filter (fun p => pre.isPrefixOf p.1)).map
    (fun p => ⟨p.1, (p.2.length : Int)⟩))

/-! ### fs backend, pure part (src/backends/fs/fs.go and src/unnamed/part_011) -/

/-- The local allowedName helper of the fs backend: rejects a slash anywhere,
a leading dot and a trailing ".tmp"; unlike CheckName it has no empty-string
and no NUL rule. -/
def fsAllowedName (s : Bytes) : Bool :=
  !(containsB s (bytes "/")) && !((bytes ".").isPrefixOf s) &&
    !((bytes ".tmp").isSuffixOf s)

/-- filepath.Join of the backend root and a name. -/
def joinPath (root name : Bytes) : Bytes := root ++ bytes "/" ++ name

/-- Errors of the filesystem model. -/
inductive FsErr
  | notExist
  | permission
  | ioError
deriving DecidableEq, Repr

/-- One directory entry as seen by os.ReadDir: name, size and regular flag. -/
structure DirEntry where
  name : Bytes
  size : Int
  regular : Bool
deriving DecidableEq, Repr

/-- fs Backend.List: keep regular files whose names pass allowedName and
have the prefix, then sort (src/unnamed/part_011 and src/backends/fs/fs.go). -/
def fsList (entries : List DirEntry) (pre : Bytes) : BlobList :=
  sortBlobs ((entries.filter
    (fun e => e.regular && fsAllowedName e.name && pre.isPrefixOf e.name)).map
      (fun e => ⟨e.name, e.size⟩))

/-- os.Remove on a flat directory: removing an absent path is an error. -/
def osRemove (d : List (Bytes × Bytes)) (p : Bytes) : Except FsErr (List (Bytes × Bytes)) :=
  if (lookupF d p).isSome then .ok (eraseEntry d p) else .error .notExist

/-- fs Backend.Delete as in src/backends/fs/fs.go lines 81-83: returns
os.Remove's result unmodified, with no name check and no not-exist handling. -/
def fsDeleteOld (d : List (Bytes × Bytes)) (root name : Bytes) :
    Except FsErr (List (Bytes × Bytes)) :=
  osRemove d (joinPath root name)

/-- fs Backend.Delete as in src/unnamed/part_011 lines 94-106: name check,
then os.Remove with the not-exist error converted to success. -/
def fsDelete (d : List (Bytes × Bytes)) (root name : Bytes) :
    Except FsErr (List (Bytes × Bytes)) :=
  if fsAllowedName name = false then .error .permission
  else
    match osRemove d (joinPath root name) with
    | .error .notExist => .ok d
    | r => r

/-- fs Backend.NewReader (src/unnamed/part_012): name check with a permission
error, then os.Open of the joined path. -/
def fsNewReader (d : List (Bytes × Bytes)) (root name : Bytes) : Except FsErr Bytes :=
  if fsAllowedName name = false then .error .permission
  else
    match lookupF d (joinPath root name) with
    | some v => .ok v
    | none => .error .notExist

/-! ### s3 backend (src/backends/s3/s3.go, marker.go, stream.go)

Modelled with the default option values of the claims: GlobalPrefix empty,
PrefixFolders and HideFolders disabled, UseUpdateMarker enabled where the
cache protocol is concerned. The wall clock and the etag returned by the
server are explicit parameters. -/

/-- UpdateMarkerFilename constant from src/backends/s3/s3.go. -/
def UpdateMarkerFilename : Bytes := bytes "update-marker"

/-- The S3 bucket contents: object key to object data. -/
abbrev Bucket := List (Bytes × Bytes)

/-- Backend.doList: all keys with the given prefix except the marker name,
sorted; the object size is the data length. -/
def s3DoList (bucket : Bucket) (pre : Bytes) : BlobList :=
  sortBlobs ((bucket.filter
    (fun p => pre.isPrefixOf p.1 && !(decide (p.1 = UpdateMarkerFilename)))).map
      (fun p => ⟨p.1, (p.2.length : Int)⟩))

/-- The mutex-guarded cache fields of the s3 Backend. -/
structure CacheState where
  lastMarker : Bytes
  lastList : Option BlobList
  lastTime : Int
deriving DecidableEq, Repr

/-- Result of one List call: the returned blobs, the new cache state, and
whether the raw enumeration (doList) was invoked. -/
structure S3ListResult where
  blobs : BlobList
  cache : CacheState
  didFullList : Bool
deriving DecidableEq, Repr

/-- The marker bytes Load returns, empty when the blob is absent
(os.ErrNotExist makes m nil and string(m) empty). -/
def upstreamMarkerOf (bucket : Bucket) : Bytes :=
  (lookupF bucket UpdateMarkerFilename).getD []

/-- Whether the marker blob is present upstream. -/
def markerExistsIn (bucket : Bucket) : Bool :=
  (lookupF bucket UpdateMarkerFilename).isSome

/-- Backend.List with UseUpdateMarker enabled (src/backends/s3/s3.go lines
196-237): read the marker, decide mustUpdate, and either serve the cached
list filtered by the prefix, or run the full unprefixed doList and replace
lastMarker, lastList and lastTime. -/
def s3List (interval : Int) (bucket : Bucket) (c : CacheState) (now : Int)
    (pre : Bytes) : S3ListResult :=
  let m := upstreamMarkerOf bucket
  let mustUpdate : Bool :=
    c.lastList.isNone || decide (¬ m = c.lastMarker) ||
      decide (interval ≤ now - c.lastTime) || !(markerExistsIn bucket)
  if mustUpdate = false then
    ⟨WithPrefix (c.lastList.getD []) pre, c, false⟩
  else
    let blobs := s3DoList bucket []
    ⟨WithPrefix blobs pre, ⟨m, some blobs, now⟩, true⟩

/-- Decimal byte string of an integer (fmt %d). -/
def decBytes (n : Int) : Bytes := bytes (toString n)

/-- Go %v of a bool. -/
def boolBytes (b : Bool) : Bytes := if b then bytes "true" else bytes "false"

/-- The marker payload written by setMarker (src/backends/s3/marker.go):
name, etag, unix-nanos and the delete flag, NUL-separated. -/
def encodeMarker (name etag : Bytes) (nanos : Int) (isDel : Bool) : Bytes :=
  name ++ bytes "\x00" ++ etag ++ bytes "\x00" ++ decBytes nanos ++
    bytes "\x00" ++ boolBytes isDel

/-- A whole s3 Backend instance: bucket contents plus cache fields. -/
structure S3State where
  bucket : Bucket
  cache : CacheState
deriving DecidableEq, Repr

/-- setMarker with UseUpdateMarker enabled, success path: store the payload
under the marker name, then set lastList to nil and lastMarker to the
payload (lastTime is not touched). -/
def setMarker (st : S3State) (name etag : Bytes) (isDel : Bool) (nanos : Int) : S3State :=
  let p := encodeMarker name etag nanos isDel
  ⟨setEntry st.bucket UpdateMarkerFilename p,
    ⟨p, none, st.cache.lastTime⟩⟩

/-- Backend.Store with UseUpdateMarker enabled, success path: upload the data
(the server returns the etag), then setMarker(name, etag, false). -/
def s3Store (st : S3State) (name data etag : Bytes) (nanos : Int) : S3State :=
  setMarker ⟨setEntry st.bucket name data, st.cache⟩ name etag false nanos

/-- Backend.Delete with UseUpdateMarker enabled, success path: remove the
object (removing an absent key succeeds), then setMarker(name, "", true). -/
def s3Delete (st : S3State) (name : Bytes) (nanos : Int) : S3State :=
  setMarker ⟨eraseEntry st.bucket name, st.cache⟩ name [] true nanos

/-- writerWrapper (src/backends/s3/stream.go): the object name, whether the
pipe and its background upload goroutine exist yet, and the bytes written. -/
structure WriterWrapper where
  name : Bytes
  pipeStarted : Bool
  buffered : Bytes
deriving DecidableEq, Repr

/-- s3 Backend.NewWriter: prepend the global prefix and wrap the name; no
pipe is created and no name validation happens. -/
def s3NewWriter (gp name : Bytes) : Except FsErr WriterWrapper :=
  .ok ⟨gp ++ name, false, []⟩

/-- writerWrapper.Write: the pipe and the background doStoreReader goroutine
are created on the first call; the bytes go into the pipe. -/
def wwWrite (w : WriterWrapper) (p : Bytes) : WriterWrapper :=
  ⟨w.name, true, w.buffered ++ p⟩

/-- writerWrapper.Close, success path, UseUpdateMarker enabled: when the pipe
exists, close it and wait for the background upload (which stores the
buffered bytes and yields an etag), then setMarker(name, etag, false); when
Write was never called there is no pipe, the upload is skipped entirely, and
setMarker runs with the zero UploadInfo's empty ETag. -/
def wwClose (w : WriterWrapper) (st : S3State) (etag : Bytes) (nanos : Int) : S3State :=
  if w.pipeStarted then
    setMarker ⟨setEntry st.bucket w.name w.buffered, st.cache⟩ w.name etag false nanos
  else
    setMarker st w.name [] false nanos

/-! ### Generic streaming adapter (src/stream.go, src/unnamed/part_000) -/

/-- The generic fallback writer of src/stream.go: a buffer and a closed
flag, bound to a name. -/
structure FallbackWriter where
  name : Bytes
  closed : Bool
  buf : Bytes
deriving DecidableEq, Repr

/-- Generic simpleblob.NewWriter for a backend without the streaming
capability: it always succeeds, whatever the name; the source performs no
name validation here (it carries a TODO comment for it). -/
def NewWriterGeneric (name : Bytes) : Except FsErr FallbackWriter :=
  .ok ⟨name, false, []⟩

/-- Whether an Except value is a success. -/
def isOkE {α : Type} (e : Except FsErr α) : Bool :=
  match e with
  | .ok _ => true
  | .error _ => false

/-! ### Instrumented filesystem interpreter (src/unnamed/part_011, part_012)

Each syscall-level primitive of the fs backend's write path is one FsOp.
A world carries the flat file map, a call counter and the trace of issued
primitives. A fault oracle (the list of call indices that fail) decides
which primitive calls return an error; a failed call leaves the files
unchanged. -/

/-- The primitive filesystem calls issued by the fs write path. -/
inductive FsOp
  | createFile (path : Bytes)
  | writeData (path : Bytes) (data : Bytes)
  | syncFile (path : Bytes)
  | closeFile (path : Bytes)
  | renameFile (from_ to_ : Bytes)
  | removeFile (path : Bytes)
  | openDir (path : Bytes)
  | statDir (path : Bytes)
  | syncDirOp (path : Bytes)
  | closeDir (path : Bytes)
deriving DecidableEq, Repr

/-- World state threaded through the interpreter. -/
structure FsWorld where
  files : List (Bytes × Bytes)
  ctr : Nat
  trace : List FsOp
deriving DecidableEq, Repr

/-- Issue one primitive: it is recorded in the trace and consumes one call
index; when the oracle marks the index as failing, the files are untouched
and false is returned, else upd is applied. -/
def runPrim (w : FsWorld) (failSet : List Nat) (op : FsOp)
    (upd : List (Bytes × Bytes) → List (Bytes × Bytes)) : FsWorld × Bool :=
  if w.ctr ∈ failSet then
    (⟨w.files, w.ctr + 1, w.trace ++ [op]⟩, false)
  else
    (⟨upd w.files, w.ctr + 1, w.trace ++ [op]⟩, true)

/-- File-map effect of a rename: the source entry moves onto the target. -/
def renameUpd (from_ to_ : Bytes) (f : List (Bytes × Bytes)) : List (Bytes × Bytes) :=
  match lookupF f from_ with
  | none => f
  | some v => setEntry (eraseEntry f from_) to_ v

/-- writeFile from src/unnamed/part_011 lines 146-159: os.Create, deferred
Close, Write, Sync. No removal of the file happens on any failure. -/
def writeFile (w : FsWorld) (failSet : List Nat) (name data : Bytes) : FsWorld × Bool :=
  let r1 := runPrim w failSet (.createFile name) (fun f => setEntry f name [])
  if r1.2 = false then r1 else
  let r2 := runPrim r1.1 failSet (.writeData name data)
    (fun f => setEntry f name ((lookupF f name).getD [] ++ data))
  if r2.2 = false then
    ((runPrim r2.1 failSet (.closeFile name) id).1, false)
  else
  let r3 := runPrim r2.1 failSet (.syncFile name) id
  ((runPrim r3.1 failSet (.closeFile name) id).1, r3.2)

/-- syncDir from src/unnamed/part_011 lines 161-179: Open, Stat, Sync (an
error there returns without closing), then Close whose error is returned. -/
def syncDir (w : FsWorld) (failSet : List Nat) (name : Bytes) : FsWorld × Bool :=
  let r1 := runPrim w failSet (.openDir name) id
  if r1.2 = false then r1 else
  let r2 := runPrim r1.1 failSet (.statDir name) id
  if r2.2 = false then
    ((runPrim r2.1 failSet (.closeDir name) id).1, false)
  else
  let r3 := runPrim r2.1 failSet (.syncDirOp name) id
  if r3.2 = false then r3 else
  runPrim r3.1 failSet (.closeDir name) id

/-- fs Backend.Store from src/unnamed/part_011 lines 76-92: name check, then
writeFile to name+".tmp", then syncDir on the root, then os.Rename. -/
def fsStore (w : FsWorld) (failSet : List Nat) (root name data : Bytes) : FsWorld × Bool :=
  if fsAllowedName name = false then (w, false) else
  let fullPath := joinPath root name
  let tmpPath := fullPath ++ bytes ".tmp"
  let r1 := writeFile w failSet tmpPath data
  if r1.2 = false then r1 else
  let r2 := syncDir r1.1 failSet root
  if r2.2 = false then r2 else
  runPrim r2.1 failSet (.renameFile tmpPath fullPath) (renameUpd tmpPath fullPath)

/-- createAtomic from src/unnamed/part_012: the temp path is the destination
plus a dot, the pid and the ignore suffix; os.Create opens it. -/
def createAtomic (w : FsWorld) (failSet : List Nat) (fpath pid : Bytes) :
    FsWorld × Bool × Bytes :=
  let tmp := fpath ++ bytes "." ++ pid ++ bytes ".tmp"
  let r := runPrim w failSet (.createFile tmp) (fun f => setEntry f tmp [])
  (r.1, r.2, tmp)

/-- atomicFile.Write: one write into the temp file, appending. -/
def atomicWrite (w : FsWorld) (failSet : List Nat) (tmp data : Bytes) : FsWorld × Bool :=
  runPrim w failSet (.writeData tmp data)
    (fun f => setEntry f tmp ((lookupF f tmp).getD [] ++ data))

/-- The deferred cleanup of atomicFile.Close: os.Remove of the temp path,
its error ignored. -/
def removeTmp (w : FsWorld) (failSet : List Nat) (tmp : Bytes) : FsWorld :=
  (runPrim w failSet (.removeFile tmp) (fun f => eraseEntry f tmp)).1

/-- atomicFile.Close from src/unnamed/part_012 lines 51-90: sync the temp
file, close it, rename onto the destination, open the destination's
directory, sync it, close it; every error path runs the deferred removal of
the temp path before returning. -/
def atomicClose (w : FsWorld) (failSet : List Nat) (path tmp dirPath : Bytes) :
    FsWorld × Bool :=
  let r1 := runPrim w failSet (.syncFile tmp) id
  if r1.2 = false then
    (removeTmp (runPrim r1.1 failSet (.closeFile tmp) id).1 failSet tmp, false)
  else
  let r2 := runPrim r1.1 failSet (.closeFile tmp) id
  if r2.2 = false then (removeTmp r2.1 failSet tmp, false) else
  let r3 := runPrim r2.1 failSet (.renameFile tmp path) (renameUpd tmp path)
  if r3.2 = false then (removeTmp r3.1 failSet tmp, false) else
  let r4 := runPrim r3.1 failSet (.openDir dirPath) id
  if r4.2 = false then (removeTmp r4.1 failSet tmp, false) else
  let r5 := runPrim r4.1 failSet (.syncDirOp dirPath) id
  if r5.2 = false then
    (removeTmp (runPrim r5.1 failSet (.closeDir dirPath) id).1 failSet tmp, false)
  else
  let r6 := runPrim r5.1 failSet (.closeDir dirPath) id
  if r6.2 = false then (removeTmp r6.1 failSet tmp, false) else (r6.1, true)

/-- atomicFile.Clean from src/unnamed/part_012 lines 45-48: close the temp
file and remove it, both errors ignored. -/
def atomicClean (w : FsWorld) (failSet : List Nat) (tmp : Bytes) : FsWorld :=
  removeTmp (runPrim w failSet (.closeFile tmp) id).1 failSet tmp

/-- fs Backend.NewWriter from src/unnamed/part_012 lines 109-116: name check
with a permission error, then createAtomic on the joined path; the result
carries the destination and temp paths. -/
def fsNewWriter (w : FsWorld) (failSet : List Nat) (root name pid : Bytes) :
    FsWorld × Except FsErr (Bytes × Bytes) :=
  if fsAllowedName name = false then (w, .error .permission)
  else
    let fullPath := joinPath root name
    let r := createAtomic w failSet fullPath pid
    (r.1, if r.2.1 then .ok (fullPath, r.2.2) else .error .ioError)

/-! ### Additional assoc-list lemmas used by the claim theorems -/

theorem mem_eraseEntry_ne (m : List (Bytes × Bytes)) (k k' v' : Bytes) (h : k' ≠ k) :
    (k', v') ∈ eraseEntry m k ↔ (k', v') ∈ m := by
  induction m with
  | nil => simp [eraseEntry]
  | cons p t ih =>
    by_cases hp : p.1 = k
    · rw [eraseEntry, if_pos hp, List.mem_cons, ih]
      constructor
      · exact Or.inr
      · rintro (rfl | hm)
        · exact absurd hp h
        · exact hm
    · rw [eraseEntry, if_neg hp, List.mem_cons, List.mem_cons, ih]

theorem mem_setEntry_ne (m : List (Bytes × Bytes)) (k v k' v' : Bytes) (h : k' ≠ k) :
    (k', v') ∈ setEntry m k v ↔ (k', v') ∈ m := by
  induction m with
  | nil =>
    simp only [setEntry, List.mem_singleton, List.not_mem_nil, iff_false]
    intro hh
    exact h (congrArg Prod.fst hh)
  | cons p t ih =>
    by_cases hp : p.1 = k
    · rw [setEntry, if_pos hp, List.mem_cons, List.mem_cons, mem_eraseEntry_ne t k k' v' h]
      constructor
      · rintro (hh | hm)
        · exact absurd (congrArg Prod.fst hh) h
        · exact Or.inr hm
      · rintro (rfl | hm)
        · exact absurd hp h
        · exact Or.inr hm
    · rw [setEntry, if_neg hp, List.mem_cons, List.mem_cons, ih]

theorem mem_setEntry_cases (m : List (Bytes × Bytes)) (k v : Bytes) (q : Bytes × Bytes)
    (h : q ∈ setEntry m k v) : q = (k, v) ∨ q ∈ m := by
  induction m with
  | nil => simpa [setEntry] using h
  | cons p t ih =>
    by_cases hp : p.1 = k
    · rw [setEntry, if_pos hp, List.mem_cons] at h
      rcases h with h | h
      · exact Or.inl h
      · refine Or.inr (List.mem_cons.2 (Or.inr ?_))
        rcases q with ⟨qk, qv⟩
        by_cases hq : qk = k
        · subst hq
          exact absurd h (not_mem_eraseEntry t qk qv)
        · exact (mem_eraseEntry_ne t k qk qv hq).1 h
    · rw [setEntry, if_neg hp, List.mem_cons] at h
      rcases h with h | h
      · exact Or.inr (List.mem_cons.2 (Or.inl h))
      · rcases ih h with h | h
        · exact Or.inl h
        · exact Or.inr (List.mem_cons.2 (Or.inr h))

/-! ### Claim C6 -/

/-- Claim C6: CheckName rejects exactly the empty string, strings containing
a slash or the NUL byte, strings starting with a dot, and strings ending in
".tmp", evaluated in this order, each with a distinguishable error kind;
every other string is accepted by CheckName and AllowedName, including
names with internal spaces or dots such as the three listed examples. -/
theorem checkName_characterization :
    (∀ s : Bytes, CheckName s = none ↔
      (s ≠ [] ∧ containsB s (bytes "/") = false ∧ containsB s (bytes "\x00") = false ∧
        (bytes ".").isPrefixOf s = false ∧ (bytes ".tmp").isSuffixOf s = false)) ∧
    CheckName [] = some ⟨[], .empty, []⟩ ∧
    (∀ s, s ≠ [] → containsB s (bytes "/") = true →
      CheckName s = some ⟨s, .content, bytes "/"⟩) ∧
    (∀ s, s ≠ [] → containsB s (bytes "/") = false → containsB s (bytes "\x00") = true →
      CheckName s = some ⟨s, .content, bytes "\x00"⟩) ∧
    (∀ s, s ≠ [] → containsB s (bytes "/") = false → containsB s (bytes "\x00") = false →
      (bytes ".").isPrefixOf s = true →
      CheckName s = some ⟨s, .forbiddenPrefix, bytes "."⟩) ∧
    (∀ s, s ≠ [] → containsB s (bytes "/") = false → containsB s (bytes "\x00") = false →
      (bytes ".").isPrefixOf s = false → (bytes ".tmp").isSuffixOf s = true →
      CheckName s = some ⟨s, .forbiddenSuffix, bytes ".tmp"⟩) ∧
    (∀ s, AllowedName s = true ↔ CheckName s = none) ∧
    AllowedName (bytes "with space") = true ∧
    AllowedName (bytes " .not-really-hidden") = true ∧
    AllowedName (bytes "not-really-temporary.tmp ") = true ∧
    (CheckName (bytes "")).isSome = true ∧
    (CheckName (bytes ".hidden")).isSome = true ∧
    (CheckName (bytes "a/b")).isSome = true ∧
    (CheckName (bytes "x.tmp")).isSome = true ∧
    (CheckName (bytes "has\x00null")).isSome = true := by
  refine ⟨?_, by decide, ?_, ?_, ?_, ?_, ?_, by decide, by decide, by decide,
    by decide, by decide, by decide, by decide, by decide⟩
  · intro s
    unfold CheckName
    by_cases h0 : s = []
    · simp [h0]
    · simp only [h0, if_false, nameContents, namePrefixes, nameSuffixes, List.find?]
      by_cases h1 : containsB s (bytes "/") = true
      · simp [h1]
      · rw [Bool.not_eq_true] at h1
        rw [h1]
        by_cases h2 : containsB s (bytes "\x00") = true
        · simp [h2, h1]
        · rw [Bool.not_eq_true] at h2
          rw [h2]
          by_cases h3 : (bytes ".").isPrefixOf s = true
          · simp [h3, h0, h1, h2]
          · rw [Bool.not_eq_true] at h3
            rw [h3]
            by_cases h4 : (bytes ".tmp").isSuffixOf s = true
            · simp [h4, h0, h1, h2, h3]
            · rw [Bool.not_eq_true] at h4
              rw [h4]
              simp [h0, h1, h2, h3, h4]
  · intro s h0 h1
    unfold CheckName
    simp [h0, nameContents, List.find?, h1]
  · intro s h0 h1 h2
    unfold CheckName
    simp [h0, nameContents, List.find?, h1, h2]
  · intro s h0 h1 h2 h3
    unfold CheckName
    simp [h0, nameContents, namePrefixes, List.find?, h1, h2, h3]
  · intro s h0 h1 h2 h3 h4
    unfold CheckName
    simp [h0, nameContents, namePrefixes, nameSuffixes, List.find?, h1, h2, h3, h4]
  · intro s
    unfold AllowedName
    cases CheckName s <;> simp

/-- Witness for C6: the dot-prefix rule applied to ".hidden". -/
theorem checkName_characterization_witness :
    CheckName (bytes ".hidden") = some ⟨bytes ".hidden", .forbiddenPrefix, bytes "."⟩ :=
  checkName_characterization.2.2.2.2.1 (bytes ".hidden")
    (by decide) (by decide) (by decide) (by decide)

/-! ### Claim C7 -/

/-- Claim C7 (code bug in src/backends/fs/fs.go): that fs Delete returns the
raw os.Remove error, so deleting an absent name fails with a not-exist error
and a second delete right after a successful one fails too; the later fs
revision of the same backend and the memory backend return success, as the
Interface documentation and the tester require. -/
theorem fsDelete_notfound_divergence :
    fsDeleteOld [] (bytes "r") (bytes "x") = .error .notExist ∧
    fsDeleteOld [(bytes "r/x", [49])] (bytes "r") (bytes "x") = .ok [] ∧
    fsDelete [] (bytes "r") (bytes "x") = .ok [] ∧
    fsDelete [(bytes "r/x", [49])] (bytes "r") (bytes "x") = .ok [] ∧
    memDelete [] (bytes "x") = [] :=
  ⟨rfl, rfl, rfl, rfl, rfl⟩

/-! ### Claim C8 -/

/-- Claim C8: memory-backend round trip with copy isolation. Store copies the
caller's buffer at call time, so the map value is independent of the heap:
a later Load returns d whatever heap mutations happened in between (to the
caller's buffer or to any buffer a previous Load handed out), and Load
itself hands back a fresh copy. -/
theorem memStore_load_roundtrip (h : Heap) (m : MemBackend) (n d : Bytes) (buf : BufId)
    (hn : AllowedName n = true) (hbuf : h.read buf = d) :
    (∀ h2 : Heap,
      (memLoad h2 (memStore h m n buf) n).map (fun pr => pr.1.read pr.2) = some d) ∧
    (∀ v : Bytes,
      (memLoad (h.write buf v) (memStore h m n buf) n).map
        (fun pr => pr.1.read pr.2) = some d) := by
  have hlook : lookupF (memStore h m n buf) n = some d := by
    rw [memStore, hbuf]
    exact lookupF_setEntry_self m n d
  refine ⟨fun h2 => ?_, fun v => ?_⟩
  · rw [memLoad, hlook]
    simp [Heap.read_alloc]
  · rw [memLoad, hlook]
    simp [Heap.read_alloc]

/-- Witness for C8 at a concrete heap, name and payload. -/
theorem memStore_load_roundtrip_witness :
    (memLoad (Heap.mk []) (memStore (Heap.mk [[49]]) [] (bytes "a") 0) (bytes "a")).map
      (fun pr => pr.1.read pr.2) = some [49] :=
  (memStore_load_roundtrip (Heap.mk [[49]]) [] (bytes "a") [49] 0
    (by decide) (by decide)).1 (Heap.mk [])

/-! ### Claim C5 -/

/-- Claim C5 counterexample: the memory backend lists stored names with the
reserved temp suffix and the reserved marker name, so the exclusion clause
of the claim fails there. -/
theorem memList_includes_reserved_names :
    memList [(bytes "x.tmp", [49]), (bytes "update-marker", [50])] (bytes "") =
      [⟨bytes "update-marker", 1⟩, ⟨bytes "x.tmp", 1⟩] ∧
    (bytes ".tmp").isSuffixOf (bytes "x.tmp") = true := by decide

/-- Membership in a memory listing. -/
theorem mem_memList (m : MemBackend) (pre : Bytes) (b : Blob) :
    b ∈ memList m pre ↔
      ∃ p, p ∈ m ∧ pre.isPrefixOf p.1 = true ∧ b = ⟨p.1, (p.2.length : Int)⟩ := by
  rw [memList, mem_sortBlobs]
  simp only [List.mem_map, List.mem_filter]
  constructor
  · rintro ⟨p, ⟨hm, hp⟩, rfl⟩
    exact ⟨p, hm, hp, rfl⟩
  · rintro ⟨p, hm, hp, rfl⟩
    exact ⟨p, ⟨hm, hp⟩, rfl⟩

/-- Membership in an fs listing. -/
theorem mem_fsList (es : List DirEntry) (pre : Bytes) (b : Blob) :
    b ∈ fsList es pre ↔
      ∃ e, e ∈ es ∧ e.regular = true ∧ fsAllowedName e.name = true ∧
        pre.isPrefixOf e.name = true ∧ b = ⟨e.name, e.size⟩ := by
  rw [fsList, mem_sortBlobs]
  simp only [List.mem_map, List.mem_filter, Bool.and_eq_true]
  constructor
  · rintro ⟨e, ⟨he, ⟨hr, ha⟩, hp⟩, rfl⟩
    exact ⟨e, he, hr, ha, hp, rfl⟩
  · rintro ⟨e, he, hr, ha, hp, rfl⟩
    exact ⟨e, ⟨he, ⟨hr, ha⟩, hp⟩, rfl⟩

/-- Membership in an s3 enumeration. -/
theorem mem_s3DoList (bkt : Bucket) (pre : Bytes) (b : Blob) :
    b ∈ s3DoList bkt pre ↔
      ∃ p, p ∈ bkt ∧ pre.isPrefixOf p.1 = true ∧ p.1 ≠ UpdateMarkerFilename ∧
        b = ⟨p.1, (p.2.length : Int)⟩ := by
  rw [s3DoList, mem_sortBlobs]
  simp only [List.mem_map, List.mem_filter, Bool.and_eq_true, Bool.not_eq_true',
    decide_eq_false_iff_not]
  constructor
  · rintro ⟨p, ⟨hm, hp, hne⟩, rfl⟩
    exact ⟨p, hm, hp, hne, rfl⟩
  · rintro ⟨p, hm, hp, hne, rfl⟩
    exact ⟨p, ⟨hm, hp, hne⟩, rfl⟩

/-- Claim C5 amended: every list returned by the memory, fs and s3 backends
is sorted ascending by name under byte-wise comparison, and contains exactly
the stored blobs whose names start with the prefix, after each backend's own
exclusions: memory excludes nothing, fs excludes non-regular entries and
names failing its allowedName check (slash, leading dot, ".tmp" suffix), and
the s3 enumeration excludes exactly the reserved marker name. -/
theorem backend_list_sorted_exact :
    (∀ (m : MemBackend) (pre : Bytes), List.Sorted blobLe (memList m pre)) ∧
    (∀ (es : List DirEntry) (pre : Bytes), List.Sorted blobLe (fsList es pre)) ∧
    (∀ (bkt : Bucket) (pre : Bytes), List.Sorted blobLe (s3DoList bkt pre)) ∧
    (∀ (m : MemBackend) (pre : Bytes) (b : Blob),
      b ∈ memList m pre ↔
        ∃ p, p ∈ m ∧ pre.isPrefixOf p.1 = true ∧ b = ⟨p.1, (p.2.length : Int)⟩) ∧
    (∀ (es : List DirEntry) (pre : Bytes) (b : Blob),
      b ∈ fsList es pre ↔
        ∃ e, e ∈ es ∧ e.regular = true ∧ fsAllowedName e.name = true ∧
          pre.isPrefixOf e.name = true ∧ b = ⟨e.name, e.size⟩) ∧
    (∀ (bkt : Bucket) (pre : Bytes) (b : Blob),
      b ∈ s3DoList bkt pre ↔
        ∃ p, p ∈ bkt ∧ pre.isPrefixOf p.1 = true ∧ p.1 ≠ UpdateMarkerFilename ∧
          b = ⟨p.1, (p.2.length : Int)⟩) := by
  exact ⟨fun m pre => sortBlobs_sorted _, fun es pre => sortBlobs_sorted _,
    fun bkt pre => sortBlobs_sorted _, mem_memList, mem_fsList, mem_s3DoList⟩

/-! ### Claim C9 -/

/-- Claim C9 counterexample: the generic fallback NewWriter and the s3
NewWriter succeed at construction for the empty name, which the Name
Validator rejects. -/
theorem newWriter_accepts_invalid_name :
    isOkE (NewWriterGeneric (bytes "")) = true ∧
    isOkE (s3NewWriter [] (bytes "")) = true ∧
    CheckName (bytes "") ≠ none := by decide

/-- Claim C9 amended: only the fs backend validates at construction: its
NewReader and NewWriter return a permission error, before any I/O, for every
name failing its allowedName check; the generic fallback writer and the s3
streaming writer are constructed successfully for every name, with no
validation (the generic reader can only fail through the underlying Load). -/
theorem stream_construction_validation (d : List (Bytes × Bytes)) (w : FsWorld)
    (failSet : List Nat) (root name pid : Bytes) (h : fsAllowedName name = false) :
    fsNewReader d root name = .error .permission ∧
    fsNewWriter w failSet root name pid = (w, .error .permission) ∧
    (∀ nm, isOkE (NewWriterGeneric nm) = true) ∧
    (∀ gp nm, isOkE (s3NewWriter gp nm) = true) := by
  refine ⟨?_, ?_, fun nm => rfl, fun gp nm => rfl⟩
  · rw [fsNewReader, if_pos h]
  · rw [fsNewWriter, if_pos h]

/-- Witness for C9 at the slash-containing name "a/b". -/
theorem stream_construction_validation_witness :
    fsNewReader [] (bytes "r") (bytes "a/b") = .error .permission :=
  (stream_construction_validation [] ⟨[], 0, []⟩ [] (bytes "r") (bytes "a/b")
    (bytes "1") (by decide)).1

/-! ### Claim C10 -/

/-- Claim C10: the s3 streaming writer creates its pipe and background
upload lazily on the first Write; Close on a never-written writer performs
no upload, so the named blob keeps its prior value (or stays absent), yet
it still writes a fresh marker for that name with an empty version token,
and it succeeds. -/
theorem s3_lazy_writer_close (st : S3State) (name etag : Bytes) (nanos : Int)
    (hn : name ≠ UpdateMarkerFilename) :
    (∀ gp nm, s3NewWriter gp nm = .ok ⟨gp ++ nm, false, []⟩) ∧
    (∀ (ww : WriterWrapper) (p : Bytes), (wwWrite ww p).pipeStarted = true) ∧
    lookupF (wwClose ⟨name, false, []⟩ st etag nanos).bucket name =
      lookupF st.bucket name ∧
    lookupF (wwClose ⟨name, false, []⟩ st etag nanos).bucket UpdateMarkerFilename =
      some (encodeMarker name [] nanos false) ∧
    (wwClose ⟨name, false, []⟩ st etag nanos).cache.lastMarker =
      encodeMarker name [] nanos false ∧
    (wwClose ⟨name, false, []⟩ st etag nanos).cache.lastList = none := by
  have hcl : wwClose ⟨name, false, []⟩ st etag nanos = setMarker st name [] false nanos := by
    rw [wwClose]
    simp
  refine ⟨fun gp nm => rfl, fun ww p => rfl, ?_, ?_, ?_, ?_⟩
  · rw [hcl, setMarker]
    exact lookupF_setEntry_ne st.bucket UpdateMarkerFilename _ name hn
  · rw [hcl, setMarker]
    exact lookupF_setEntry_self st.bucket UpdateMarkerFilename _
  · rw [hcl, setMarker]
  · rw [hcl, setMarker]

/-- Witness for C10 at a concrete bucket holding a prior value for the name. -/
theorem s3_lazy_writer_close_witness :
    lookupF (wwClose ⟨bytes "a", false, []⟩
        ⟨[(bytes "a", [49])], ⟨[], none, 0⟩⟩ (bytes "e") 7).bucket (bytes "a") =
      lookupF [(bytes "a", [49])] (bytes "a") :=
  (s3_lazy_writer_close ⟨[(bytes "a", [49])], ⟨[], none, 0⟩⟩ (bytes "a")
    (bytes "e") 7 (by decide)).2.2.1

/-! ### Claim C1 -/

/-- The refresh condition exactly as the claim words it: no cached list yet,
or the marker read from the backend differs byte-wise from the remembered
one, or the elapsed time since the last refresh strictly exceeds the
force-refresh interval, or the marker blob is absent upstream. -/
def claimRefreshCond (interval : Int) (bucket : Bucket) (c : CacheState)
    (now : Int) : Prop :=
  c.lastList = none ∨ upstreamMarkerOf bucket ≠ c.lastMarker ∨
    now - c.lastTime > interval ∨ markerExistsIn bucket = false

/-- Unfolding lemma for s3List. -/
theorem s3List_eq (interval : Int) (bucket : Bucket) (c : CacheState) (now : Int)
    (pre : Bytes) :
    s3List interval bucket c now pre =
      if (c.lastList.isNone || decide (¬ upstreamMarkerOf bucket = c.lastMarker) ||
          decide (interval ≤ now - c.lastTime) || !(markerExistsIn bucket)) = false
      then ⟨WithPrefix (c.lastList.getD []) pre, c, false⟩
      else ⟨WithPrefix (s3DoList bucket []) pre,
        ⟨upstreamMarkerOf bucket, some (s3DoList bucket []), now⟩, true⟩ := rfl

/-- Claim C1 counterexample: with a cached list present, matching markers and
a present marker blob, at elapsed time exactly equal to the force-refresh
interval the code performs the full enumeration although the claim's
condition list (which requires strictly exceeding the interval) is false. -/
theorem s3List_boundary_refresh :
    (s3List 5 [(UpdateMarkerFilename, bytes "m")]
      ⟨bytes "m", some [], 0⟩ 5 []).didFullList = true ∧
    ¬ claimRefreshCond 5 [(UpdateMarkerFilename, bytes "m")]
      ⟨bytes "m", some [], 0⟩ 5 := by
  constructor
  · rfl
  · rw [claimRefreshCond]
    push_neg
    refine ⟨by simp, by decide, by decide, by decide⟩

/-- Claim C1 amended: with the update-marker cache enabled, List performs the
full unprefixed enumeration if and only if there is no cached list, or the
marker read differs byte-wise from the remembered one, or the elapsed time
reaches or exceeds the force-refresh interval, or the marker blob is absent
upstream; a refresh replaces the cached list, the remembered marker and the
refresh timestamp, and in every other case List returns the prefix-filtered
cached list with the state unchanged. -/
theorem s3List_refresh_characterization (interval : Int) (bucket : Bucket)
    (c : CacheState) (now : Int) (pre : Bytes) :
    ((s3List interval bucket c now pre).didFullList = true ↔
      (c.lastList = none ∨ upstreamMarkerOf bucket ≠ c.lastMarker ∨
        now - c.lastTime ≥ interval ∨ markerExistsIn bucket = false)) ∧
    ((s3List interval bucket c now pre).didFullList = true →
      s3List interval bucket c now pre =
        ⟨WithPrefix (s3DoList bucket []) pre,
          ⟨upstreamMarkerOf bucket, some (s3DoList bucket []), now⟩, true⟩) ∧
    ((s3List interval bucket c now pre).didFullList = false →
      s3List interval bucket c now pre =
        ⟨WithPrefix (c.lastList.getD []) pre, c, false⟩) := by
  by_cases hb : (c.lastList.isNone || decide (¬ upstreamMarkerOf bucket = c.lastMarker) ||
      decide (interval ≤ now - c.lastTime) || !(markerExistsIn bucket)) = false
  · rw [s3List_eq, if_pos hb]
    simp only [Bool.or_eq_false_iff, Bool.not_eq_true', decide_eq_false_iff_not,
      Option.isNone_eq_false_iff, Option.isSome_iff_ne_none, not_not] at hb
    obtain ⟨⟨⟨h1, h2⟩, h3⟩, h4⟩ := hb
    constructor
    · simp only [Bool.false_eq_true, false_iff]
      push_neg
      refine ⟨h1, h2, by omega, by simpa using h4⟩
    · exact ⟨fun hh => absurd hh (by simp), fun _ => rfl⟩
  · rw [s3List_eq, if_neg hb]
    rw [Bool.not_eq_false, Bool.or_eq_true, Bool.or_eq_true, Bool.or_eq_true] at hb
    constructor
    · simp only [true_iff]
      rcases hb with ((h | h) | h) | h
      · exact Or.inl (Option.isNone_iff_eq_none.1 h)
      · exact Or.inr (Or.inl (of_decide_eq_true h))
      · exact Or.inr (Or.inr (Or.inl (by have := of_decide_eq_true h; omega)))
      · refine Or.inr (Or.inr (Or.inr ?_))
        rwa [Bool.not_eq_true'] at h
    · exact ⟨fun _ => rfl, fun hh => absurd hh (by simp)⟩

/-- Witness for C1 at a cold cache, which must trigger a refresh. -/
theorem s3List_refresh_characterization_witness :
    (s3List 5 [] ⟨[], none, 0⟩ 0 []).didFullList = true :=
  ((s3List_refresh_characterization 5 [] ⟨[], none, 0⟩ 0 []).1).mpr (Or.inl rfl)

/-! ### Claim C2 -/

/-- Claim C2: with the update-marker cache enabled, a successful Store writes
a fresh marker blob encoding the name, the upload's version token, the
timestamp and a false delete flag, and a successful Delete writes one with
an empty version token and a true delete flag; both set lastMarker to the
marker payload and drop the cached list, so the next List by this instance
performs a full enumeration of the already-mutated bucket: the stored blob
is listed exactly when the prefix matches, and the deleted name is gone. -/
theorem s3_marker_maintenance (st : S3State) (name data etag : Bytes) (nanos : Int)
    (hn : name ≠ UpdateMarkerFilename) :
    lookupF (s3Store st name data etag nanos).bucket UpdateMarkerFilename =
      some (encodeMarker name etag nanos false) ∧
    (s3Store st name data etag nanos).cache.lastMarker =
      encodeMarker name etag nanos false ∧
    (s3Store st name data etag nanos).cache.lastList = none ∧
    lookupF (s3Delete st name nanos).bucket UpdateMarkerFilename =
      some (encodeMarker name [] nanos true) ∧
    (s3Delete st name nanos).cache.lastMarker = encodeMarker name [] nanos true ∧
    (s3Delete st name nanos).cache.lastList = none ∧
    (∀ interval now pre,
      (s3List interval (s3Store st name data etag nanos).bucket
        (s3Store st name data etag nanos).cache now pre).didFullList = true) ∧
    (∀ interval now pre,
      ((⟨name, (data.length : Int)⟩ : Blob) ∈
        (s3List interval (s3Store st name data etag nanos).bucket
          (s3Store st name data etag nanos).cache now pre).blobs
        ↔ pre.isPrefixOf name = true)) ∧
    (∀ interval now pre (b : Blob),
      b ∈ (s3List interval (s3Delete st name nanos).bucket
        (s3Delete st name nanos).cache now pre).blobs → b.name ≠ name) := by
  have hsb : (s3Store st name data etag nanos).bucket =
      setEntry (setEntry st.bucket name data) UpdateMarkerFilename
        (encodeMarker name etag nanos false) := rfl
  have hsc : (s3Store st name data etag nanos).cache =
      ⟨encodeMarker name etag nanos false, none, st.cache.lastTime⟩ := rfl
  have hdb : (s3Delete st name nanos).bucket =
      setEntry (eraseEntry st.bucket name) UpdateMarkerFilename
        (encodeMarker name [] nanos true) := rfl
  have hdc : (s3Delete st name nanos).cache =
      ⟨encodeMarker name [] nanos true, none, st.cache.lastTime⟩ := rfl
  have hfullS : ∀ interval now pre,
      s3List interval (s3Store st name data etag nanos).bucket
        (s3Store st name data etag nanos).cache now pre =
      ⟨WithPrefix (s3DoList (s3Store st name data etag nanos).bucket []) pre,
        ⟨upstreamMarkerOf (s3Store st name data etag nanos).bucket,
          some (s3DoList (s3Store st name data etag nanos).bucket []), now⟩, true⟩ := by
    intro interval now pre
    rw [s3List_eq, if_neg]
    rw [Bool.not_eq_false, hsc]
    simp
  have hfullD : ∀ interval now pre,
      s3List interval (s3Delete st name nanos).bucket
        (s3Delete st name nanos).cache now pre =
      ⟨WithPrefix (s3DoList (s3Delete st name nanos).bucket []) pre,
        ⟨upstreamMarkerOf (s3Delete st name nanos).bucket,
          some (s3DoList (s3Delete st name nanos).bucket []), now⟩, true⟩ := by
    intro interval now pre
    rw [s3List_eq, if_neg]
    rw [Bool.not_eq_false, hdc]
    simp
  refine ⟨?_, by rw [hsc], by rw [hsc], ?_, by rw [hdc], by rw [hdc], ?_, ?_, ?_⟩
  · rw [hsb]
    exact lookupF_setEntry_self _ _ _
  · rw [hdb]
    exact lookupF_setEntry_self _ _ _
  · intro interval now pre
    rw [hfullS interval now pre]
  · intro interval now pre
    rw [hfullS interval now pre]
    show (⟨name, (data.length : Int)⟩ : Blob) ∈
      WithPrefix (s3DoList (s3Store st name data etag nanos).bucket []) pre ↔ _
    rw [WithPrefix, List.mem_filter]
    have hmem : (⟨name, (data.length : Int)⟩ : Blob) ∈
        s3DoList (s3Store st name data etag nanos).bucket [] := by
      have hx : (name, data) ∈ (s3Store st name data etag nanos).bucket := by
        rw [hsb]
        exact (mem_setEntry_ne _ UpdateMarkerFilename _ name data hn).2
          (mem_setEntry_self st.bucket name data)
      exact (mem_s3DoList _ [] _).2 ⟨(name, data), hx, by simp, hn, rfl⟩
    constructor
    · rintro ⟨-, hp⟩
      exact hp
    · intro hp
      exact ⟨hmem, hp⟩
  · intro interval now pre b hmem hbn
    rw [hfullD interval now pre] at hmem
    have hmem2 : b ∈ s3DoList (s3Delete st name nanos).bucket [] :=
      (List.mem_filter.1 hmem).1
    rcases (mem_s3DoList _ [] _).1 hmem2 with ⟨p, hp, -, hpne, rfl⟩
    rw [hdb] at hp
    rcases mem_setEntry_cases _ _ _ _ hp with h | h
    · exact hpne (by rw [h])
    · rcases p with ⟨pk, pv⟩
      have : pk = name := hbn
      subst this
      exact not_mem_eraseEntry st.bucket pk pv h

/-- Witness for C2 at a concrete store into an empty bucket. -/
theorem s3_marker_maintenance_witness :
    lookupF (s3Store ⟨[], ⟨[], none, 0⟩⟩ (bytes "a") [49] (bytes "e") 7).bucket
      UpdateMarkerFilename = some (encodeMarker (bytes "a") (bytes "e") 7 false) :=
  (s3_marker_maintenance ⟨[], ⟨[], none, 0⟩⟩ (bytes "a") [49] (bytes "e") 7
    (by decide)).1

/-! ### Interpreter helper lemmas -/

theorem runPrim_files_id (w : FsWorld) (fset : List Nat) (op : FsOp) :
    (runPrim w fset op id).1.files = w.files := by
  by_cases h : w.ctr ∈ fset <;> simp [runPrim, h]

theorem runPrim_files_of_false (w : FsWorld) (fset : List Nat) (op : FsOp)
    (upd : List (Bytes × Bytes) → List (Bytes × Bytes))
    (h : (runPrim w fset op upd).2 = false) :
    (runPrim w fset op upd).1.files = w.files := by
  by_cases hc : w.ctr ∈ fset
  · simp [runPrim, hc]
  · simp [runPrim, hc] at h

theorem runPrim_files_of_true (w : FsWorld) (fset : List Nat) (op : FsOp)
    (upd : List (Bytes × Bytes) → List (Bytes × Bytes))
    (h : (runPrim w fset op upd).2 = true) :
    (runPrim w fset op upd).1.files = upd w.files := by
  by_cases hc : w.ctr ∈ fset
  · simp [runPrim, hc] at h
  · simp [runPrim, hc]

theorem removeTmp_other (w : FsWorld) (fset : List Nat) (tmp q : Bytes) (h : q ≠ tmp) :
    lookupF (removeTmp w fset tmp).files q = lookupF w.files q := by
  by_cases hc : w.ctr ∈ fset <;>
    simp [removeTmp, runPrim, hc, lookupF_eraseEntry_ne _ _ _ h]

theorem writeFile_files_other (w : FsWorld) (fset : List Nat) (nm dt q : Bytes)
    (h : q ≠ nm) :
    lookupF (writeFile w fset nm dt).1.files q = lookupF w.files q := by
  simp only [writeFile, runPrim]
  by_cases h1 : w.ctr ∈ fset <;> by_cases h2 : w.ctr + 1 ∈ fset <;>
    by_cases h3 : w.ctr + 1 + 1 ∈ fset <;> by_cases h4 : w.ctr + 1 + 1 + 1 ∈ fset <;>
      simp [h1, h2, h3, h4, lookupF_setEntry_ne _ _ _ _ h]

theorem syncDir_files (w : FsWorld) (fset : List Nat) (nm : Bytes) :
    (syncDir w fset nm).1.files = w.files := by
  simp only [syncDir, runPrim]
  by_cases h1 : w.ctr ∈ fset <;> by_cases h2 : w.ctr + 1 ∈ fset <;>
    by_cases h3 : w.ctr + 1 + 1 ∈ fset <;> by_cases h4 : w.ctr + 1 + 1 + 1 ∈ fset <;>
      simp [h1, h2, h3, h4]

/-! ### Claim C3 -/

/-- The step order the claim prescribes, read off a trace: every rename comes
before every directory flush (the flush happens only after the rename). -/
def claimWriteOrder (tr : List FsOp) : Prop :=
  ∀ (i j : Nat) (p q d : Bytes), tr[i]? = some (FsOp.renameFile p q) →
    tr[j]? = some (FsOp.syncDirOp d) → i < j

/-- Claim C3 counterexample: a successful fs Store syncs the directory
before the rename (its trace is create, write, sync, close of the temp
file, then open, stat, sync, close of the directory, then the rename),
violating the claimed rename-then-flush order. -/
theorem fsStore_dirsync_before_rename :
    (fsStore ⟨[], 0, []⟩ [] (bytes "r") (bytes "a") [49]).2 = true ∧
    ¬ claimWriteOrder (fsStore ⟨[], 0, []⟩ [] (bytes "r") (bytes "a") [49]).1.trace := by
  refine ⟨by decide, fun hcl => ?_⟩
  rw [claimWriteOrder] at hcl
  have h := hcl 8 6 (bytes "r/a.tmp") (bytes "r/a") (bytes "r") (by decide) (by decide)
  omega

/-- Claim C3 amended: on the success path, fs Store executes create, write,
sync and close of the colocated temp file, then flushes the containing
directory, and only then renames the temp file onto the destination (no
directory flush follows the rename); the streaming writer's finalizing
Close does follow the claimed order: sync and close of the temp file, the
rename, and only then the directory flush. -/
theorem fs_write_order :
    (∀ (f0 : List (Bytes × Bytes)) (tr0 : List FsOp) (c0 : Nat)
        (root name data : Bytes), fsAllowedName name = true →
      (fsStore ⟨f0, c0, tr0⟩ [] root name data).2 = true ∧
      (fsStore ⟨f0, c0, tr0⟩ [] root name data).1.trace =
        tr0 ++ [.createFile (joinPath root name ++ bytes ".tmp"),
          .writeData (joinPath root name ++ bytes ".tmp") data,
          .syncFile (joinPath root name ++ bytes ".tmp"),
          .closeFile (joinPath root name ++ bytes ".tmp"),
          .openDir root, .statDir root, .syncDirOp root, .closeDir root,
          .renameFile (joinPath root name ++ bytes ".tmp") (joinPath root name)]) ∧
    (∀ (f0 : List (Bytes × Bytes)) (tr0 : List FsOp) (c0 : Nat)
        (path tmp dirPath : Bytes),
      (atomicClose ⟨f0, c0, tr0⟩ [] path tmp dirPath).2 = true ∧
      (atomicClose ⟨f0, c0, tr0⟩ [] path tmp dirPath).1.trace =
        tr0 ++ [.syncFile tmp, .closeFile tmp, .renameFile tmp path,
          .openDir dirPath, .syncDirOp dirPath, .closeDir dirPath]) ∧
    (∀ (f0 : List (Bytes × Bytes)) (c0 : Nat) (path tmp dirPath : Bytes),
      claimWriteOrder (atomicClose ⟨f0, c0, []⟩ [] path tmp dirPath).1.trace) := by
  refine ⟨fun f0 tr0 c0 root name data h => ?_,
    fun f0 tr0 c0 path tmp dirPath => ?_, fun f0 c0 path tmp dirPath => ?_⟩
  · constructor <;> simp [fsStore, writeFile, syncDir, runPrim, h]
  · constructor <;> simp [atomicClose, runPrim]
  · have htr : (atomicClose ⟨f0, c0, []⟩ [] path tmp dirPath).1.trace =
        [.syncFile tmp, .closeFile tmp, .renameFile tmp path,
          .openDir dirPath, .syncDirOp dirPath, .closeDir dirPath] := by
      simp [atomicClose, runPrim]
    rw [claimWriteOrder]
    intro i j p q d hi hj
    rw [htr] at hi hj
    rcases i with _ | _ | _ | _ | _ | _ | i <;>
      rcases j with _ | _ | _ | _ | _ | _ | j <;> simp_all

/-- Witness for C3 at a concrete Store run. -/
theorem fs_write_order_witness :
    (fsStore ⟨[], 0, []⟩ [] (bytes "r") (bytes "a") [49]).2 = true :=
  (fs_write_order.1 [] [] 0 (bytes "r") (bytes "a") [49] (by decide)).1

/-! ### Claim C4 -/

/-- Claim C4 counterexample: in fs Store, a failure of the temp file's data
sync leaves the temporary file behind on disk (the destination is untouched
but the removal clause of the claim fails for the Store path). -/
theorem fsStore_sync_failure_keeps_tmp :
    (fsStore ⟨[], 0, []⟩ [2] (bytes "r") (bytes "a") [49]).2 = false ∧
    lookupF (fsStore ⟨[], 0, []⟩ [2] (bytes "r") (bytes "a") [49]).1.files
      (bytes "r/a.tmp") = some [49] ∧
    lookupF (fsStore ⟨[], 0, []⟩ [2] (bytes "r") (bytes "a") [49]).1.files
      (bytes "r/a") = none := by decide

theorem atomicClose_fail_dest (w : FsWorld) (fset : List Nat) (path tmp dirPath : Bytes)
    (hne : tmp ≠ path) :
    (atomicClose w fset path tmp dirPath).2 = false →
    (lookupF (atomicClose w fset path tmp dirPath).1.files path = lookupF w.files path ∨
      lookupF (atomicClose w fset path tmp dirPath).1.files path = lookupF w.files tmp) := by
  have hpt : path ≠ tmp := Ne.symm hne
  simp only [atomicClose]
  by_cases h1 : (runPrim w fset (.syncFile tmp) id).2 = false
  · rw [if_pos h1]
    intro _
    left
    rw [removeTmp_other _ _ _ _ hpt, runPrim_files_id, runPrim_files_id]
  · rw [if_neg h1]
    by_cases h2 : (runPrim (runPrim w fset (.syncFile tmp) id).1 fset (.closeFile tmp) id).2 = false
    · rw [if_pos h2]
      intro _
      left
      rw [removeTmp_other _ _ _ _ hpt, runPrim_files_id, runPrim_files_id]
    · rw [if_neg h2]
      by_cases h3 : (runPrim (runPrim (runPrim w fset (.syncFile tmp) id).1 fset (.closeFile tmp) id).1 fset (.renameFile tmp path) (renameUpd tmp path)).2 = false
      · rw [if_pos h3]
        intro _
        left
        rw [removeTmp_other _ _ _ _ hpt, runPrim_files_of_false _ _ _ _ h3,
          runPrim_files_id, runPrim_files_id]
      · rw [if_neg h3]
        have h3t : (runPrim (runPrim (runPrim w fset (.syncFile tmp) id).1 fset (.closeFile tmp) id).1 fset (.renameFile tmp path) (renameUpd tmp path)).2 = true := by
          revert h3
          cases (runPrim (runPrim (runPrim w fset (.syncFile tmp) id).1 fset (.closeFile tmp) id).1 fset (.renameFile tmp path) (renameUpd tmp path)).2 <;> simp
        have hren : (runPrim (runPrim (runPrim w fset (.syncFile tmp) id).1 fset (.closeFile tmp) id).1 fset (.renameFile tmp path) (renameUpd tmp path)).1.files = renameUpd tmp path w.files := by
          rw [runPrim_files_of_true _ _ _ _ h3t, runPrim_files_id, runPrim_files_id]
        have hdest : lookupF (renameUpd tmp path w.files) path = lookupF w.files path ∨
            lookupF (renameUpd tmp path w.files) path = lookupF w.files tmp := by
          cases hv : lookupF w.files tmp with
          | none =>
            left
            rw [renameUpd, hv]
          | some v =>
            right
            rw [renameUpd, hv, lookupF_setEntry_self]
        by_cases h4 : (runPrim (runPrim (runPrim (runPrim w fset (.syncFile tmp) id).1 fset (.closeFile tmp) id).1 fset (.renameFile tmp path) (renameUpd tmp path)).1 fset (.openDir dirPath) id).2 = false
        · rw [if_pos h4]
          intro _
          rw [removeTmp_other _ _ _ _ hpt, runPrim_files_id, hren]
          exact hdest
        · rw [if_neg h4]
          by_cases h5 : (runPrim (runPrim (runPrim (runPrim (runPrim w fset (.syncFile tmp) id).1 fset (.closeFile tmp) id).1 fset (.renameFile tmp path) (renameUpd tmp path)).1 fset (.openDir dirPath) id).1 fset (.syncDirOp dirPath) id).2 = false
          · rw [if_pos h5]
            intro _
            rw [removeTmp_other _ _ _ _ hpt, runPrim_files_id, runPrim_files_id,
              runPrim_files_id, hren]
            exact hdest
          · rw [if_neg h5]
            by_cases h6 : (runPrim (runPrim (runPrim (runPrim (runPrim (runPrim w fset (.syncFile tmp) id).1 fset (.closeFile tmp) id).1 fset (.renameFile tmp path) (renameUpd tmp path)).1 fset (.openDir dirPath) id).1 fset (.syncDirOp dirPath) id).1 fset (.closeDir dirPath) id).2 = false
            · rw [if_pos h6]
              intro _
              rw [removeTmp_other _ _ _ _ hpt, runPrim_files_of_false _ _ _ _ h6,
                runPrim_files_id, runPrim_files_id, hren]
              exact hdest
            · rw [if_neg h6]
              intro hf
              simp at hf

theorem atomicClose_single_fault_removes_tmp (f0 : List (Bytes × Bytes)) (tr0 : List FsOp)
    (k : Nat) (path tmp dirPath : Bytes) :
    (atomicClose ⟨f0, 0, tr0⟩ [k] path tmp dirPath).2 = false →
    lookupF (atomicClose ⟨f0, 0, tr0⟩ [k] path tmp dirPath).1.files tmp = none := by
  rcases Nat.lt_or_ge k 6 with hk | hk
  · interval_cases k <;>
      (intro _ <;>
        cases hv : lookupF f0 tmp <;>
          simp [atomicClose, runPrim, removeTmp, renameUpd, hv, lookupF_eraseEntry_self])
  · intro hf
    have h0 : ¬ ((0 : Nat) = k) := by omega
    have h1 : ¬ ((1 : Nat) = k) := by omega
    have h2 : ¬ ((2 : Nat) = k) := by omega
    have h3 : ¬ ((3 : Nat) = k) := by omega
    have h4 : ¬ ((4 : Nat) = k) := by omega
    have h5 : ¬ ((5 : Nat) = k) := by omega
    simp [atomicClose, runPrim, removeTmp, h0, h1, h2, h3, h4, h5] at hf

theorem fsStore_fail_dest (w : FsWorld) (fset : List Nat) (root name data : Bytes) :
    (fsStore w fset root name data).2 = false →
    lookupF (fsStore w fset root name data).1.files (joinPath root name) =
      lookupF w.files (joinPath root name) := by
  have hne : joinPath root name ≠ joinPath root name ++ bytes ".tmp" := by
    intro hh
    have hlen := congrArg List.length hh
    simp [bytes] at hlen
  simp only [fsStore]
  by_cases ha : fsAllowedName name = false
  · rw [if_pos ha]
    intro _
    rfl
  · rw [if_neg ha]
    by_cases h1 : (writeFile w fset (joinPath root name ++ bytes ".tmp") data).2 = false
    · rw [if_pos h1]
      intro _
      exact writeFile_files_other _ _ _ _ _ hne
    · rw [if_neg h1]
      by_cases h2 : (syncDir (writeFile w fset (joinPath root name ++ bytes ".tmp") data).1 fset root).2 = false
      · rw [if_pos h2]
        intro _
        rw [syncDir_files]
        exact writeFile_files_other _ _ _ _ _ hne
      · rw [if_neg h2]
        by_cases h3 : (runPrim (syncDir (writeFile w fset (joinPath root name ++ bytes ".tmp") data).1 fset root).1 fset (.renameFile (joinPath root name ++ bytes ".tmp") (joinPath root name)) (renameUpd (joinPath root name ++ bytes ".tmp") (joinPath root name))).2 = false
        · intro _
          rw [runPrim_files_of_false _ _ _ _ h3, syncDir_files]
          exact writeFile_files_other _ _ _ _ _ hne
        · intro hf
          exact absurd hf h3

theorem atomicClean_removes (f0 : List (Bytes × Bytes)) (c0 : Nat) (tr0 : List FsOp)
    (tmp : Bytes) :
    lookupF (atomicClean ⟨f0, c0, tr0⟩ [] tmp).files tmp = none ∧
    (∀ q, q ≠ tmp →
      lookupF (atomicClean ⟨f0, c0, tr0⟩ [] tmp).files q = lookupF f0 q) := by
  constructor
  · simp [atomicClean, removeTmp, runPrim, lookupF_eraseEntry_self]
  · intro q hq
    simp [atomicClean, removeTmp, runPrim, lookupF_eraseEntry_ne _ _ _ hq]

/-- Claim C4 amended: in the atomic-file path (the streaming writer's Close),
any failure removes the temporary file (shown under a single-fault oracle,
since the cleanup removal is itself a syscall), and the destination either
keeps its prior value (failure before the rename took effect) or holds the
complete new value (failure of the directory flush after a successful
rename); an abandoned writer's Clean removes the temp file and touches
nothing else. In the Store path the destination is untouched by any failure,
but the temporary file is not removed. -/
theorem atomic_write_failure_semantics :
    (∀ (w : FsWorld) (fset : List Nat) (path tmp dirPath : Bytes), tmp ≠ path →
      (atomicClose w fset path tmp dirPath).2 = false →
      (lookupF (atomicClose w fset path tmp dirPath).1.files path =
          lookupF w.files path ∨
        lookupF (atomicClose w fset path tmp dirPath).1.files path =
          lookupF w.files tmp)) ∧
    (∀ (f0 : List (Bytes × Bytes)) (tr0 : List FsOp) (k : Nat)
        (path tmp dirPath : Bytes),
      (atomicClose ⟨f0, 0, tr0⟩ [k] path tmp dirPath).2 = false →
      lookupF (atomicClose ⟨f0, 0, tr0⟩ [k] path tmp dirPath).1.files tmp = none) ∧
    (∀ (w : FsWorld) (fset : List Nat) (root name data : Bytes),
      (fsStore w fset root name data).2 = false →
      lookupF (fsStore w fset root name data).1.files (joinPath root name) =
        lookupF w.files (joinPath root name)) ∧
    (∀ (f0 : List (Bytes × Bytes)) (c0 : Nat) (tr0 : List FsOp) (tmp : Bytes),
      lookupF (atomicClean ⟨f0, c0, tr0⟩ [] tmp).files tmp = none ∧
      (∀ q, q ≠ tmp →
        lookupF (atomicClean ⟨f0, c0, tr0⟩ [] tmp).files q = lookupF f0 q)) :=
  ⟨atomicClose_fail_dest, atomicClose_single_fault_removes_tmp, fsStore_fail_dest,
    atomicClean_removes⟩

/-- Witness for C4: a sync failure during Close removes the temp file. -/
theorem atomic_write_failure_semantics_witness :
    lookupF (atomicClose ⟨[(bytes "t", [49])], 0, []⟩ [0] (bytes "p") (bytes "t")
      (bytes "d")).1.files (bytes "t") = none :=
  atomic_write_failure_semantics.2.1 [(bytes "t", [49])] [] 0 (bytes "p") (bytes "t")
    (bytes "d") (by decide)

end Simpleblob
